import Mathlib

/-!
Verification of a line-oriented TCP chat server (Python sources:
`server.py`, `database.py`, `auth.py`, `client.py`) against its
natural-language specification.

The embedding models:
* the SQLite-backed store of `database.py` as an explicit `DB` state
  (a list of user rows and a list of message rows, in insertion order;
  `message_id` order is list order),
* the PBKDF2 hash of `auth.py` abstractly, as a parameter
  `pbkdf2 : String → List Nat → List Nat` (password, salt bytes ↦ hash
  bytes), with hex encoding/decoding made explicit,
* `broadcast_message` / `send_line` of `server.py` as a pure function
  producing a trace of save/send events, with oracles for persistence
  failure and per-connection send failure (`OSError`),
* `handle_client` of `server.py` as a pure function of the list of
  incoming input lines, threading the database and the global client
  list and producing a trace of high-level events.

Nondeterministic externals (the random salt of `os.urandom`, the clock
of `datetime.now`) are passed in as explicit supplies.
-/

namespace Chat

/-! ### Hex encoding (models Python `bytes.hex` / `bytes.fromhex`)

`auth.py` stores the salt and hash as lowercase hexadecimal strings and
decodes the salt back with `bytes.fromhex`.  Bytes are modelled as `Nat`
(meaningful when `< 256`). -/

/-- Lowercase hex digit for a value `< 16` (models Python's `hex` digits). -/
def hexDigit (n : Nat) : Char :=
  if n < 10 then Char.ofNat (48 + n) else Char.ofNat (87 + n)

/-- Numeric value of a lowercase hex digit (inverse of `hexDigit`). -/
def hexDigitVal (c : Char) : Nat :=
  if 97 ≤ c.toNat then c.toNat - 87 else c.toNat - 48

/-- Hex character list of a byte list (models `bytes.hex`). -/
def hexOfBytes : List Nat → List Char
  | [] => []
  | b :: rest => hexDigit (b / 16) :: hexDigit (b % 16) :: hexOfBytes rest

/-- Models `bytes.hex()` producing a string. -/
def bytesToHexStr (bs : List Nat) : String := ⟨hexOfBytes bs⟩

/-- Models `bytes.fromhex` on a character list (pairs of hex digits). -/
def hexStrToBytes : List Char → List Nat
  | a :: b :: rest => (hexDigitVal a * 16 + hexDigitVal b) :: hexStrToBytes rest
  | _ => []

/-- A byte list is valid when every entry is an actual byte. -/
def ValidBytes (bs : List Nat) : Prop := ∀ b ∈ bs, b < 256

instance : DecidablePred ValidBytes := fun bs =>
  inferInstanceAs (Decidable (∀ b ∈ bs, b < 256))

theorem hexDigitVal_hexDigit {n : Nat} (h : n < 16) :
    hexDigitVal (hexDigit n) = n := by
  interval_cases n <;> decide

theorem hexStrToBytes_hexOfBytes {bs : List Nat} (h : ValidBytes bs) :
    hexStrToBytes (hexOfBytes bs) = bs := by
  induction bs with
  | nil => rfl
  | cons b rest ih =>
    have hb : b < 256 := h b (List.mem_cons_self _ _)
    have hrest : ValidBytes rest := fun x hx => h x (List.mem_cons_of_mem _ hx)
    have h1 : b / 16 < 16 := Nat.div_lt_of_lt_mul (by omega)
    have h2 : b % 16 < 16 := Nat.mod_lt _ (by omega)
    simp only [hexOfBytes, hexStrToBytes, hexDigitVal_hexDigit h1,
      hexDigitVal_hexDigit h2, ih hrest]
    congr 1
    omega

theorem bytesToHexStr_inj {bs cs : List Nat} (hb : ValidBytes bs)
    (hc : ValidBytes cs) (h : bytesToHexStr bs = bytesToHexStr cs) : bs = cs := by
  have hdata : hexOfBytes bs = hexOfBytes cs := congrArg String.data h
  calc bs = hexStrToBytes (hexOfBytes bs) := (hexStrToBytes_hexOfBytes hb).symm
    _ = hexStrToBytes (hexOfBytes cs) := by rw [hdata]
    _ = cs := hexStrToBytes_hexOfBytes hc

/-! ### `auth.py`

`hash_password` draws a random 16-byte salt from `os.urandom` and derives
`hashlib.pbkdf2_hmac("sha256", password, salt, 100_000)`.  Both externals
are parameters of the model: the salt is an explicit argument, and the
PBKDF2 derivation is an abstract function from the password and the salt
bytes to the hash bytes. -/

/-- Models `auth.hash_password`: returns `(salt_hex, hash_hex)`.  The salt
(in the source, 16 random bytes from `os.urandom`) is an explicit
argument; `pbkdf2` abstracts `hashlib.pbkdf2_hmac`. -/
def hash_password (pbkdf2 : String → List Nat → List Nat)
    (salt : List Nat) (password : String) : String × String :=
  (bytesToHexStr salt, bytesToHexStr (pbkdf2 password salt))

/-- Models `auth.verify_password`: decode the salt from hex, recompute the hash
with the same parameters, compare hex strings. -/
def verify_password (pbkdf2 : String → List Nat → List Nat)
    (password salt_hex stored_hash_hex : String) : Bool :=
  bytesToHexStr (pbkdf2 password (hexStrToBytes salt_hex.data)) == stored_hash_hex

/-! ### `database.py`

The SQLite store: `users(username PRIMARY KEY, password_salt, password_hash)`
and `messages(message_id AUTOINCREMENT, username, content, created_at)`.
Rows are kept in insertion order; `message_id` order is list order.
`created_at` (in the source, `datetime.now().strftime(...)`) is an
explicit argument of `save_message`. -/

/-- One row of the `messages` table: `(username, content, created_at)`. -/
abbrev Msg := String × String × String

/-- The database state: `users` rows `(username, password_salt,
password_hash)` and `messages` rows, both in insertion order. -/
structure DB where
  users : List (String × String × String)
  messages : List Msg
deriving DecidableEq, Repr

/-- The freshly initialised database (`init_db` on a new file). -/
def DB.empty : DB := { users := [], messages := [] }

/-- Whether a `users` row with this username exists (the PRIMARY KEY
constraint that makes the INSERT of `create_user` raise `IntegrityError`). -/
def userExists (db : DB) (username : String) : Bool :=
  db.users.any (fun r => r.1 == username)

/-- Models `database.create_user`: hash the password, INSERT the row; an
`IntegrityError` (duplicate PRIMARY KEY) yields `false`.  Returns the new
state and the boolean result. -/
def create_user (pbkdf2 : String → List Nat → List Nat) (salt : List Nat)
    (db : DB) (username password : String) : DB × Bool :=
  if userExists db username then (db, false)
  else
    let sh := hash_password pbkdf2 salt password
    ({ db with users := db.users ++ [(username, sh.1, sh.2)] }, true)

/-- Models `database._get_user_credentials`: SELECT the `(salt, hash)` pair of
the first row with this username, or `none`. -/
def getUserCredentials (db : DB) (username : String) :
    Option (String × String) :=
  (db.users.find? (fun r => r.1 == username)).map (fun r => (r.2.1, r.2.2))

/-- Models `database.authenticate_user`: fetch stored credentials, then
`verify_password`; `false` when the user does not exist. -/
def authenticate_user (pbkdf2 : String → List Nat → List Nat)
    (db : DB) (username password : String) : Bool :=
  match getUserCredentials db username with
  | none => false
  | some (salt_hex, stored_hash_hex) =>
      verify_password pbkdf2 password salt_hex stored_hash_hex

/-- Models `database.save_message`: INSERT `(username, content, created_at)`;
the timestamp (in the source, `datetime.now()`) is an explicit argument. -/
def save_message (db : DB) (username content created_at : String) : DB :=
  { db with messages := db.messages ++ [(username, content, created_at)] }

/-- Models `database.get_recent_messages`: SELECT ... ORDER BY message_id DESC
LIMIT `limit`, then reverse to oldest-first.  The source's default limit
is 20. -/
def get_recent_messages (db : DB) (limit : Nat) : List Msg :=
  ((db.messages.reverse.take limit)).reverse

/-! ### `server.py`: clients list and `broadcast_message`

The global `clients` list holds one dictionary `{"conn": socket,
"username": str}` per registered connection; a socket is modelled by a
numeric connection identity.  `broadcast_message` saves the message,
snapshots `clients` under the lock, and sends the formatted line to each
snapshot entry, swallowing per-connection `OSError`s. -/

/-- One entry of the global `clients` list: `{"conn": ..., "username": ...}`. -/
structure Client where
  conn : Nat
  username : String
deriving DecidableEq, Repr

/-- An observable effect of `broadcast_message`: a completed
`save_message` call, or a completed `send_line` (the bytes `line ++ "\n"`
written to a connection). -/
inductive Ev where
  | save (sender content created_at : String)
  | send (conn : Nat) (bytes : String)
deriving DecidableEq, Repr

/-- The fan-out loop of `broadcast_message`: try `send_line` on every
snapshot entry; a failing send (`OSError`, `sendOk` false) is skipped with
`continue`.  `send_line` appends `"\n"` before writing. -/
def fanOut (sendOk : Nat → Bool) (line : String) : List Client → List Ev
  | [] => []
  | c :: rest =>
    if sendOk c.conn then Ev.send c.conn (line ++ "\n") :: fanOut sendOk line rest
    else fanOut sendOk line rest

/-- Result of one `broadcast_message` call: the database afterwards, the
trace of completed effects in order, and whether the call returned
normally (`ok = false` models the `save_message` exception propagating). -/
structure BCResult where
  db : DB
  events : List Ev
  ok : Bool
deriving Repr

/-- Models `server.broadcast_message`: persist via `save_message` first (if the
store raises — `saveOk = false` — the exception propagates and nothing is
sent), then format `"[sender] content"`, snapshot `clients` under the
lock, and fan out.  `created_at` stands for `datetime.now()` inside
`save_message`; `sendOk` tells which connections' `sendall` raises
`OSError`. -/
def broadcast_message (saveOk : Bool) (sendOk : Nat → Bool)
    (clients : List Client) (db : DB)
    (sender content created_at : String) : BCResult :=
  if saveOk then
    let db' := save_message db sender content created_at
    let line := "[" ++ sender ++ "] " ++ content
    let snapshot := clients
    { db := db',
      events := Ev.save sender content created_at :: fanOut sendOk line snapshot,
      ok := true }
  else
    { db := db, events := [], ok := false }

/-- The registration step of `handle_client` (line 137):
`clients.append({"conn": conn, "username": username})` under the lock —
an unconditional list append. -/
def registryAdd (clients : List Client) (c : Client) : List Client :=
  clients ++ [c]

/-- The removal step of `handle_client`'s `finally` block:
`clients[:] = [c for c in clients if c["conn"] is not conn]`. -/
def registryRemove (clients : List Client) (conn : Nat) : List Client :=
  clients.filter (fun c => c.conn != conn)

theorem fanOut_all_ok (sendOk : Nat → Bool) (line : String)
    (clients : List Client) (hok : ∀ c ∈ clients, sendOk c.conn = true) :
    fanOut sendOk line clients
      = clients.map (fun c => Ev.send c.conn (line ++ "\n")) := by
  induction clients with
  | nil => rfl
  | cons c rest ih =>
    have hc : sendOk c.conn = true := hok c (List.mem_cons_self _ _)
    simp only [fanOut, hc, if_true, List.map_cons]
    exact congrArg _ (ih fun x hx => hok x (List.mem_cons_of_mem _ hx))

theorem mem_fanOut_of_ok (sendOk : Nat → Bool) (line : String)
    {clients : List Client} {c : Client} (hc : c ∈ clients)
    (hok : sendOk c.conn = true) :
    Ev.send c.conn (line ++ "\n") ∈ fanOut sendOk line clients := by
  induction clients with
  | nil => cases hc
  | cons d rest ih =>
    rcases List.mem_cons.mp hc with h | h
    · subst h
      simp [fanOut, hok]
    · by_cases hd : sendOk d.conn = true
      · simp [fanOut, hd, ih h]
      · simp only [fanOut, hd, Bool.false_eq_true, if_false]
        exact ih h

theorem of_mem_fanOut (sendOk : Nat → Bool) (line : String)
    {clients : List Client} {e : Ev} (he : e ∈ fanOut sendOk line clients) :
    ∃ c ∈ clients, sendOk c.conn = true ∧ e = Ev.send c.conn (line ++ "\n") := by
  induction clients with
  | nil => cases he
  | cons d rest ih =>
    by_cases hd : sendOk d.conn = true
    · simp only [fanOut, hd, if_true, List.mem_cons] at he
      rcases he with h | h
      · exact ⟨d, List.mem_cons_self _ _, hd, h⟩
      · obtain ⟨c, hc, hok, he⟩ := ih h
        exact ⟨c, List.mem_cons_of_mem _ hc, hok, he⟩
    · simp only [fanOut, hd, Bool.false_eq_true, if_false] at he
      obtain ⟨c, hc, hok, he⟩ := ih he
      exact ⟨c, List.mem_cons_of_mem _ hc, hok, he⟩

/-- Claim C1: with the store available and all sends succeeding,
`broadcast_message sender content` returns normally, appends exactly one
row to the message table, and its effect trace is the save followed by
exactly one `"[sender] content"` line to every registered client; under
distinct connection identities no client is sent the line twice. -/
theorem broadcast_fanout_exactly_once
    (sendOk : Nat → Bool) (clients : List Client) (db : DB)
    (sender content created_at : String)
    (hok : ∀ c ∈ clients, sendOk c.conn = true)
    (hnd : (clients.map Client.conn).Nodup) :
    (broadcast_message true sendOk clients db sender content created_at).ok
        = true ∧
    (broadcast_message true sendOk clients db sender content created_at).db.messages
        = db.messages ++ [(sender, content, created_at)] ∧
    (broadcast_message true sendOk clients db sender content created_at).events
        = Ev.save sender content created_at ::
            clients.map (fun c =>
              Ev.send c.conn ("[" ++ sender ++ "] " ++ content ++ "\n")) ∧
    ∀ c ∈ clients,
      (broadcast_message true sendOk clients db sender content created_at).events.count
          (Ev.send c.conn ("[" ++ sender ++ "] " ++ content ++ "\n")) = 1 := by
  refine ⟨rfl, rfl, ?_, ?_⟩
  · simp only [broadcast_message, if_true, save_message]
    exact congrArg _ (fanOut_all_ok sendOk _ clients hok)
  · intro c hc
    have hmap : fanOut sendOk ("[" ++ sender ++ "] " ++ content) clients
        = clients.map (fun c => Ev.send c.conn ("[" ++ sender ++ "] " ++ content ++ "\n")) :=
      fanOut_all_ok sendOk _ clients hok
    simp only [broadcast_message, if_true, hmap, List.count_cons]
    have hinj : Function.Injective
        (fun k => Ev.send k ("[" ++ sender ++ "] " ++ content ++ "\n")) := by
      intro a b hab
      cases hab
      rfl
    have hcomp : clients.map (fun c => Ev.send c.conn ("[" ++ sender ++ "] " ++ content ++ "\n"))
        = (clients.map Client.conn).map (fun k => Ev.send k ("[" ++ sender ++ "] " ++ content ++ "\n")) := by
      rw [List.map_map]
      rfl
    rw [hcomp, List.count_map_of_injective _ _ hinj]
    have hmem : c.conn ∈ clients.map Client.conn := List.mem_map_of_mem _ hc
    have hcount : (clients.map Client.conn).count c.conn = 1 :=
      List.count_eq_one_of_mem hnd hmem
    simp [hcount]

/-- Claim C1 witness: one registered client, everything succeeding. -/
theorem broadcast_fanout_exactly_once_witness :
    (broadcast_message true (fun _ => true) [⟨1, "a"⟩] DB.empty "u" "hi" "t").ok
        = true ∧
    (broadcast_message true (fun _ => true) [⟨1, "a"⟩] DB.empty "u" "hi" "t").db.messages
        = DB.empty.messages ++ [("u", "hi", "t")] ∧
    (broadcast_message true (fun _ => true) [⟨1, "a"⟩] DB.empty "u" "hi" "t").events
        = Ev.save "u" "hi" "t" ::
            [(⟨1, "a"⟩ : Client)].map (fun c =>
              Ev.send c.conn ("[" ++ "u" ++ "] " ++ "hi" ++ "\n")) ∧
    ∀ c ∈ [(⟨1, "a"⟩ : Client)],
      (broadcast_message true (fun _ => true) [⟨1, "a"⟩] DB.empty "u" "hi" "t").events.count
          (Ev.send c.conn ("[" ++ "u" ++ "] " ++ "hi" ++ "\n")) = 1 :=
  broadcast_fanout_exactly_once (fun _ => true) [⟨1, "a"⟩] DB.empty "u" "hi" "t"
    (by decide) (by decide)

/-- Claim C2: when `save_message` raises (store unavailable), the exception
propagates out of `broadcast_message` before the fan-out loop: the trace
is empty (no connection is sent any bytes) and the database is unchanged. -/
theorem broadcast_persist_failure_no_delivery
    (sendOk : Nat → Bool) (clients : List Client) (db : DB)
    (sender content created_at : String) :
    (broadcast_message false sendOk clients db sender content created_at).events
        = [] ∧
    (broadcast_message false sendOk clients db sender content created_at).ok
        = false ∧
    (broadcast_message false sendOk clients db sender content created_at).db
        = db :=
  ⟨rfl, rfl, rfl⟩

/-- Claim C3: a per-connection send failure is skipped for that connection
only: `broadcast_message` still returns normally, every client whose send
does not raise receives the line, and only connections whose send
succeeds appear in the trace. -/
theorem broadcast_send_failure_isolated
    (sendOk : Nat → Bool) (clients : List Client) (db : DB)
    (sender content created_at : String) :
    (broadcast_message true sendOk clients db sender content created_at).ok
        = true ∧
    (∀ c ∈ clients, sendOk c.conn = true →
      Ev.send c.conn ("[" ++ sender ++ "] " ++ content ++ "\n")
        ∈ (broadcast_message true sendOk clients db sender content created_at).events) ∧
    (∀ k b, Ev.send k b
        ∈ (broadcast_message true sendOk clients db sender content created_at).events →
      sendOk k = true) := by
  refine ⟨rfl, ?_, ?_⟩
  · intro c hc hok
    simp only [broadcast_message, if_true, List.mem_cons]
    exact Or.inr (mem_fanOut_of_ok sendOk _ hc hok)
  · intro k b hb
    simp only [broadcast_message, if_true, List.mem_cons] at hb
    rcases hb with h | h
    · cases h
    · obtain ⟨c, _, hok, he⟩ := of_mem_fanOut sendOk _ h
      cases he
      exact hok

/-! ### Sequences of `create_user` calls (for the uniqueness property)

A registration request is `(salt, username, password)`; the salt supply
stands for the fresh `os.urandom(16)` drawn inside each `hash_password`
call. -/

/-- One registration request: the salt drawn for it, the username and the
password. -/
abbrev CreateReq := List Nat × String × String

/-- Run a sequence of `create_user` calls, returning the final database
and the boolean result of each call in order. -/
def runCreates (pbkdf2 : String → List Nat → List Nat) (db : DB) :
    List CreateReq → DB × List Bool
  | [] => (db, [])
  | (salt, u, p) :: rest =>
    let r := create_user pbkdf2 salt db u p
    let rec' := runCreates pbkdf2 r.1 rest
    (rec'.1, r.2 :: rec'.2)

/-- The list of results of a sequence of `create_user` calls. -/
def createResults (pbkdf2 : String → List Nat → List Nat) (db : DB)
    (reqs : List CreateReq) : List Bool :=
  (runCreates pbkdf2 db reqs).2

/-- How many calls in the sequence were for username `u` and returned
`true`. -/
def successesFor (u : String) (reqs : List CreateReq)
    (results : List Bool) : Nat :=
  ((reqs.zip results).filter (fun rb => rb.1.2.1 == u && rb.2)).length

theorem userExists_create_user (pbkdf2 : String → List Nat → List Nat)
    (salt : List Nat) (db : DB) (u' p u : String) :
    userExists (create_user pbkdf2 salt db u' p).1 u
      = (userExists db u || (u' == u)) := by
  by_cases h : userExists db u'
  · simp only [create_user, h, if_true]
    by_cases hu : userExists db u
    · simp [hu]
    · simp only [hu, Bool.false_or]
      by_cases he : u' == u
      · have : u' = u := by simpa using he
        subst this
        simp [hu] at h
      · simp only [userExists] at hu ⊢
        simp [he, hu]
  · simp only [create_user, h, Bool.false_eq_true, if_false]
    simp [userExists, List.any_append]

theorem length_runCreates (pbkdf2 : String → List Nat → List Nat)
    (db : DB) (reqs : List CreateReq) :
    (runCreates pbkdf2 db reqs).2.length = reqs.length := by
  induction reqs generalizing db with
  | nil => rfl
  | cons r rest ih =>
    obtain ⟨salt, u, p⟩ := r
    simp [runCreates, ih]

theorem successesFor_of_exists (pbkdf2 : String → List Nat → List Nat)
    (db : DB) (reqs : List CreateReq) (u : String)
    (h : userExists db u = true) :
    successesFor u reqs (createResults pbkdf2 db reqs) = 0 := by
  induction reqs generalizing db with
  | nil => rfl
  | cons r rest ih =>
    obtain ⟨salt, u', p⟩ := r
    simp only [successesFor, createResults, runCreates, List.zip_cons_cons,
      List.filter_cons] at *
    have hres : (create_user pbkdf2 salt db u' p).2 = !userExists db u' := by
      by_cases hx : userExists db u'
      · simp [create_user, hx]
      · simp [create_user, hx]
    by_cases hu : u' == u
    · have hequ : u' = u := by simpa using hu
      subst hequ
      simp only [hres, h, Bool.not_true, Bool.and_false, hu, Bool.true_and,
        Bool.false_eq_true, if_false]
      have hx : userExists (create_user pbkdf2 salt db u' p).1 u' = true := by
        rw [userExists_create_user]
        simp [h]
      exact ih _ hx
    · simp only [hu, Bool.false_and, Bool.false_eq_true, if_false]
      have hx : userExists (create_user pbkdf2 salt db u' p).1 u = true := by
        rw [userExists_create_user]
        simp [h]
      exact ih _ hx

theorem successesFor_le_one (pbkdf2 : String → List Nat → List Nat)
    (db : DB) (reqs : List CreateReq) (u : String) :
    successesFor u reqs (createResults pbkdf2 db reqs) ≤ 1 := by
  induction reqs generalizing db with
  | nil => exact Nat.zero_le 1
  | cons r rest ih =>
    obtain ⟨salt, u', p⟩ := r
    simp only [successesFor, createResults, runCreates, List.zip_cons_cons,
      List.filter_cons] at *
    by_cases hcond : (u' == u && (create_user pbkdf2 salt db u' p).2) = true
    · simp only [hcond, if_true, List.length_cons, Nat.add_le_add_iff_right]
      obtain ⟨hu, hres⟩ := Bool.and_eq_true_iff.mp hcond
      have hequ : u' = u := by simpa using hu
      subst hequ
      have hnew : userExists (create_user pbkdf2 salt db u' p).1 u' = true := by
        rw [userExists_create_user]
        simp
      have := successesFor_of_exists pbkdf2 _ rest u' hnew
      simp only [successesFor, createResults] at this
      omega
    · simp only [hcond, if_false]
      exact ih _

/-- Claim C4: in any sequence of `create_user` calls, at most one call per
distinct username returns `true`; and a single `create_user` call returns
`false` exactly when the username already exists in the store. -/
theorem create_user_unique
    (pbkdf2 : String → List Nat → List Nat) (db : DB)
    (reqs : List CreateReq) (u : String) :
    successesFor u reqs (createResults pbkdf2 db reqs) ≤ 1 ∧
    ∀ salt p, ((create_user pbkdf2 salt db u p).2 = false
        ↔ userExists db u = true) := by
  refine ⟨successesFor_le_one pbkdf2 db reqs u, ?_⟩
  intro salt p
  by_cases h : userExists db u
  · simp [create_user, h]
  · simp [create_user, h]

theorem find?_eq_none_of_not_userExists {db : DB} {u : String}
    (h : userExists db u = false) :
    db.users.find? (fun r => r.1 == u) = none := by
  rw [List.find?_eq_none]
  intro x hx
  simp only [userExists, List.any_eq_false] at h
  simpa using h x hx

theorem getUserCredentials_create_user_some
    (pbkdf2 : String → List Nat → List Nat) (salt : List Nat) (db : DB)
    (u' p u : String) {c : String × String}
    (h : getUserCredentials db u = some c) :
    getUserCredentials (create_user pbkdf2 salt db u' p).1 u = some c := by
  by_cases hx : userExists db u'
  · simp only [create_user, hx, if_true]
    exact h
  · simp only [create_user, hx, Bool.false_eq_true, if_false]
    simp only [getUserCredentials, Option.map_eq_some'] at h
    obtain ⟨r, hr, hrc⟩ := h
    simp only [getUserCredentials, List.find?_append, hr]
    rw [← hrc]
    rfl

theorem getUserCredentials_runCreates_some
    (pbkdf2 : String → List Nat → List Nat) (db : DB)
    (reqs : List CreateReq) (u : String) {c : String × String}
    (h : getUserCredentials db u = some c) :
    getUserCredentials (runCreates pbkdf2 db reqs).1 u = some c := by
  induction reqs generalizing db with
  | nil => exact h
  | cons r rest ih =>
    obtain ⟨salt, u', p⟩ := r
    exact ih _ (getUserCredentials_create_user_some pbkdf2 salt db u' p u h)

theorem getUserCredentials_runCreates
    (pbkdf2 : String → List Nat → List Nat) (db : DB)
    (reqs : List CreateReq) (u : String)
    (h : userExists db u = false) :
    getUserCredentials (runCreates pbkdf2 db reqs).1 u
      = (reqs.find? (fun r => r.2.1 == u)).map
          (fun r => hash_password pbkdf2 r.1 r.2.2) := by
  induction reqs generalizing db with
  | nil =>
    simp [runCreates, getUserCredentials, find?_eq_none_of_not_userExists h,
      List.find?_nil]
  | cons r rest ih =>
    obtain ⟨salt, u', p⟩ := r
    by_cases hu : (u' == u) = true
    · have hequ : u' = u := by simpa using hu
      subst hequ
      simp only [runCreates, create_user, h, Bool.false_eq_true, if_false]
      have hcred : getUserCredentials
          { db with users := db.users ++
              [(u', (hash_password pbkdf2 salt p).1, (hash_password pbkdf2 salt p).2)] } u'
          = some (hash_password pbkdf2 salt p) := by
        simp only [getUserCredentials, List.find?_append,
          find?_eq_none_of_not_userExists h, Option.none_orElse, List.find?_cons]
        simp
      rw [getUserCredentials_runCreates_some pbkdf2 _ rest u' hcred]
      simp [List.find?_cons, hu]
    · have hstill : userExists (create_user pbkdf2 salt db u' p).1 u = false := by
        rw [userExists_create_user]
        simp only [h, Bool.false_or]
        exact Bool.eq_false_iff.mpr (fun hc => hu hc)
      simp only [runCreates]
      rw [ih _ hstill]
      simp [List.find?_cons, hu]

/-- Claim C5, part (i): the `(salt, hash)` pair produced by `hash_password p`
verifies against `p`; (ii) against a database built by a sequence of
`create_user` calls from an empty store, `authenticate_user u p` succeeds
exactly when `p` is the password of the (unique) successful registration
of `u` — in particular it fails when `u` was never registered.  The
PBKDF2 derivation is assumed to produce bytes and to be injective in the
password for each salt (collision freedom). -/
theorem authenticate_iff_registered
    (pbkdf2 : String → List Nat → List Nat) (reqs : List CreateReq)
    (u p : String)
    (hout : ∀ pw s, ValidBytes (pbkdf2 pw s))
    (hinj : ∀ s pw1 pw2, pbkdf2 pw1 s = pbkdf2 pw2 s → pw1 = pw2)
    (hsalts : ∀ r ∈ reqs, ValidBytes r.1) :
    (∀ salt pw, ValidBytes salt →
      verify_password pbkdf2 pw (hash_password pbkdf2 salt pw).1
        (hash_password pbkdf2 salt pw).2 = true) ∧
    (authenticate_user pbkdf2 (runCreates pbkdf2 DB.empty reqs).1 u p = true
      ↔ ∃ r, reqs.find? (fun r => r.2.1 == u) = some r ∧ r.2.2 = p) := by
  constructor
  · intro salt pw hsalt
    simp only [verify_password, hash_password, bytesToHexStr]
    rw [hexStrToBytes_hexOfBytes hsalt]
    exact beq_self_eq_true _
  · have hempty : userExists DB.empty u = false := rfl
    have hcred := getUserCredentials_runCreates pbkdf2 DB.empty reqs u hempty
    cases hfind : reqs.find? (fun r => r.2.1 == u) with
    | none =>
      rw [hfind] at hcred
      simp only [Option.map_none'] at hcred
      simp [authenticate_user, hcred, hfind]
    | some r =>
      obtain ⟨salt0, u0, p0⟩ := r
      rw [hfind] at hcred
      simp only [Option.map_some'] at hcred
      have hsalt0 : ValidBytes salt0 :=
        hsalts _ (List.mem_of_find?_eq_some hfind)
      simp only [authenticate_user, hcred, hash_password]
      rw [show verify_password pbkdf2 p (bytesToHexStr salt0)
            (bytesToHexStr (pbkdf2 p0 salt0))
          = (bytesToHexStr (pbkdf2 p (hexStrToBytes (bytesToHexStr salt0).data))
              == bytesToHexStr (pbkdf2 p0 salt0)) from rfl]
      rw [show (bytesToHexStr salt0).data = hexOfBytes salt0 from rfl,
        hexStrToBytes_hexOfBytes hsalt0]
      constructor
      · intro hbeq
        have heq : bytesToHexStr (pbkdf2 p salt0) = bytesToHexStr (pbkdf2 p0 salt0) :=
          by simpa using hbeq
        have : pbkdf2 p salt0 = pbkdf2 p0 salt0 :=
          bytesToHexStr_inj (hout p salt0) (hout p0 salt0) heq
        have hp : p = p0 := hinj salt0 p p0 this
        exact ⟨(salt0, u0, p0), rfl, hp.symm⟩
      · rintro ⟨r', hr', hp⟩
        cases hr'
        cases hp
        exact beq_self_eq_true _

/-! A concrete derivation function used to instantiate the abstract
PBKDF2 parameter in witnesses: fixed-width base-256 encoding of the
password's characters.  It produces bytes and is injective, so it
satisfies the assumptions placed on the real `hashlib.pbkdf2_hmac`. -/

/-- Four-byte big-endian encoding of one character's code point. -/
def charBytes (c : Char) : List Nat :=
  [c.toNat / 16777216 % 256, c.toNat / 65536 % 256,
   c.toNat / 256 % 256, c.toNat % 256]

/-- Concatenated `charBytes` of a character list. -/
def strBytesAux : List Char → List Nat
  | [] => []
  | c :: rest => charBytes c ++ strBytesAux rest

/-- Fixed-width byte encoding of a string. -/
def strBytes (s : String) : List Nat := strBytesAux s.data

theorem charBytes_valid (c : Char) : ValidBytes (charBytes c) := by
  intro b hb
  simp only [charBytes, List.mem_cons, List.not_mem_nil, or_false] at hb
  rcases hb with h | h | h | h <;> subst h <;> exact Nat.mod_lt _ (by omega)

theorem strBytes_valid (s : String) : ValidBytes (strBytes s) := by
  show ValidBytes (strBytesAux s.data)
  induction s.data with
  | nil => intro b hb; cases hb
  | cons c rest ih =>
    intro b hb
    rcases List.mem_append.mp hb with h | h
    · exact charBytes_valid c b h
    · exact ih b h

theorem charBytes_inj {c d : Char} (h : charBytes c = charBytes d) : c = d := by
  simp only [charBytes, List.cons.injEq, and_true] at h
  have hc : c.toNat < 4294967296 := c.val.val.isLt
  have hd : d.toNat < 4294967296 := d.val.val.isLt
  have : c.toNat = d.toNat := by omega
  exact Char.eq_of_val_eq (UInt32.eq_of_val_eq (Fin.ext this))

theorem charBytes_length (c : Char) : (charBytes c).length = 4 := rfl

theorem strBytesAux_inj : ∀ {l1 l2 : List Char},
    strBytesAux l1 = strBytesAux l2 → l1 = l2
  | [], [], _ => rfl
  | [], c :: rest, h => by
    have := congrArg List.length h
    simp [strBytesAux, charBytes] at this
  | c :: rest, [], h => by
    have := congrArg List.length h
    simp [strBytesAux, charBytes] at this
  | c1 :: r1, c2 :: r2, h => by
    simp only [strBytesAux] at h
    have hlen : (charBytes c1).length = (charBytes c2).length := by
      simp [charBytes_length]
    obtain ⟨h1, h2⟩ := List.append_inj h hlen
    rw [charBytes_inj h1, strBytesAux_inj h2]

theorem strBytes_inj {s1 s2 : String} (h : strBytes s1 = strBytes s2) :
    s1 = s2 := by
  cases s1
  cases s2
  exact congrArg String.mk (strBytesAux_inj h)

/-- Claim C5 witness: registering `("alice", "secret")` on a fresh store and
then authenticating with the same pair succeeds, instantiating the
abstract derivation with the injective byte encoding. -/
theorem authenticate_iff_registered_witness :
    authenticate_user (fun pw _ => strBytes pw)
        (runCreates (fun pw _ => strBytes pw) DB.empty
          [([0, 1], "alice", "secret")]).1
        "alice" "secret" = true :=
  (authenticate_iff_registered (fun pw _ => strBytes pw)
      [([0, 1], "alice", "secret")] "alice" "secret"
      (fun pw _ => strBytes_valid pw)
      (fun _ _ _ h => strBytes_inj h)
      (by decide)).2.mpr
    ⟨([0, 1], "alice", "secret"), by decide, rfl⟩

/-! ### History order (`get_recent_messages`) -/

/-- Lexicographic comparison of character lists by code point.  On the
fixed-width `"%Y-%m-%d %H:%M:%S"` strings that `save_message` stores,
this is chronological order. -/
def strLeB : List Char → List Char → Bool
  | [], _ => true
  | _ :: _, [] => false
  | a :: as, b :: bs =>
    if a.toNat < b.toNat then true
    else if a.toNat = b.toNat then strLeB as bs
    else false

/-- Timestamp order on message rows: `created_at` fields compared
lexicographically. -/
def tsLe (a b : Msg) : Prop := strLeB a.2.2.data b.2.2.data = true

instance (a b : Msg) : Decidable (tsLe a b) :=
  inferInstanceAs (Decidable (_ = true))

/-- Claim C6: the call `get_recent_messages n` returns at most `n` rows; precisely the
`min n total` most recent ones (a suffix of the saved-message list, which
holds exactly the saves completed so far), oldest first; and when the
stored rows are in non-decreasing timestamp order — as successive
`datetime.now()` calls produce — so is the returned history. -/
theorem get_recent_messages_spec (db : DB) (n : Nat) :
    (get_recent_messages db n).length ≤ n ∧
    (get_recent_messages db n).length = min n db.messages.length ∧
    (get_recent_messages db n) <:+ db.messages ∧
    (db.messages.Pairwise tsLe → (get_recent_messages db n).Pairwise tsLe) := by
  have hlen : (get_recent_messages db n).length = min n db.messages.length := by
    simp [get_recent_messages]
  have hsuf : (get_recent_messages db n) <:+ db.messages := by
    refine ⟨(db.messages.reverse.drop n).reverse, ?_⟩
    show (db.messages.reverse.drop n).reverse ++ (db.messages.reverse.take n).reverse
        = db.messages
    rw [← List.reverse_append, List.take_append_drop, List.reverse_reverse]
  refine ⟨?_, hlen, hsuf, ?_⟩
  · rw [hlen]
    exact Nat.min_le_left _ _
  · intro hp
    exact hp.sublist hsuf.sublist

/-- Claim C6 witness: two stored messages with increasing timestamps, one
requested. -/
theorem get_recent_messages_spec_witness :
    (get_recent_messages
        ⟨[], [("a", "x", "2024-01-01 00:00:00"), ("b", "y", "2024-01-01 00:00:01")]⟩
        1).Pairwise tsLe ∧
    (get_recent_messages
        ⟨[], [("a", "x", "2024-01-01 00:00:00"), ("b", "y", "2024-01-01 00:00:01")]⟩
        1).length ≤ 1 :=
  ⟨(get_recent_messages_spec
      ⟨[], [("a", "x", "2024-01-01 00:00:00"), ("b", "y", "2024-01-01 00:00:01")]⟩
      1).2.2.2 (by decide),
   (get_recent_messages_spec
      ⟨[], [("a", "x", "2024-01-01 00:00:00"), ("b", "y", "2024-01-01 00:00:01")]⟩
      1).1⟩

/-! ### The per-connection handler (`handle_client`)

`handle_client` is modelled as a pure function of the list of input
lines the connection delivers (reading past the end of the list is EOF,
Python's empty `readline` result).  It threads the database and the
global `clients` list (no other thread interleaves in this model) and
produces a trace of high-level events; a `bcast` event stands for one
`broadcast_message` call, whose own save/fan-out behaviour is modelled
separately above.  Send failures on the handler's own connection are not
modelled: every `send_line` to the handled client succeeds. -/

/-- Models Python `str.strip()`'s whitespace set (ASCII fragment). -/
def isPySpace (c : Char) : Bool :=
  c == ' ' || c == '\t' || c == '\n' || c == '\r' ||
    c == Char.ofNat 11 || c == Char.ofNat 12

/-- Models Python `str.strip()` (ASCII fragment): drop leading and
trailing whitespace. -/
def pyStrip (s : String) : String :=
  ⟨((s.data.dropWhile isPySpace).reverse.dropWhile isPySpace).reverse⟩

/-- Models Python `str.lower()` on one character (ASCII fragment). -/
def pyLowerChar (c : Char) : Char :=
  if 65 ≤ c.toNat ∧ c.toNat ≤ 90 then Char.ofNat (c.toNat + 32) else c

/-- Models Python `str.lower()` (ASCII fragment). -/
def pyLower (s : String) : String := ⟨s.data.map pyLowerChar⟩

/-- A high-level event of one `handle_client` execution. -/
inductive HEv where
  /-- A `send_line` to the handled connection itself. -/
  | sendSelf (line : String)
  /-- The `clients.append` performed on authentication. -/
  | regAdd (conn : Nat) (username : String)
  /-- The `clients[:] = ...` removal in the `finally` block. -/
  | regRemove (conn : Nat)
  /-- One `broadcast_message sender content` call. -/
  | bcast (sender content : String)
  /-- The final `conn.close()`. -/
  | close (conn : Nat)
deriving DecidableEq, Repr

/-- Result of the authentication loop: the events it emitted, the
username on success (`none` = EOF before authentication), the database,
the remaining salt supply and the unconsumed input lines. -/
structure AuthOut where
  events : List HEv
  username : Option String
  db : DB
  salts : List (List Nat)
  rest : List String
deriving Repr

/-- The `while username is None` loop of `handle_client`: one command
line per iteration (`register` / `login` / reprompt), with the two
credential reads inside the corresponding branch; EOF at any read
returns with `username = none`. -/
def authLoop (pbkdf2 : String → List Nat → List Nat) :
    DB → List (List Nat) → List String → AuthOut
  | db, salts, [] =>
    { events := [], username := none, db := db, salts := salts, rest := [] }
  | db, salts, cmdline :: rest =>
    let command := pyLower (pyStrip cmdline)
    if command == "register" then
      match rest with
      | [] =>
        { events := [HEv.sendSelf "Choose a username:"], username := none,
          db := db, salts := salts, rest := [] }
      | unameLine :: rest2 =>
        match rest2 with
        | [] =>
          { events := [HEv.sendSelf "Choose a username:",
              HEv.sendSelf "Choose a password:"],
            username := none, db := db, salts := salts, rest := [] }
        | pwLine :: rest3 =>
          let uname := pyStrip unameLine
          let pw := pyStrip pwLine
          if uname == "" || pw == "" then
            let out := authLoop pbkdf2 db salts rest3
            { out with events := HEv.sendSelf "Choose a username:" ::
                HEv.sendSelf "Choose a password:" ::
                HEv.sendSelf "Username and password cannot be empty. Try again." ::
                out.events }
          else
            let res := create_user pbkdf2 (salts.headD []) db uname pw
            let msg := if res.2 then
                "Account created successfully! Type 'login' to sign in."
              else "Username already exists. Try another username."
            let out := authLoop pbkdf2 res.1 salts.tail rest3
            { out with events := HEv.sendSelf "Choose a username:" ::
                HEv.sendSelf "Choose a password:" ::
                HEv.sendSelf msg :: out.events }
    else if command == "login" then
      match rest with
      | [] =>
        { events := [HEv.sendSelf "Username:"], username := none,
          db := db, salts := salts, rest := [] }
      | unameLine :: rest2 =>
        match rest2 with
        | [] =>
          { events := [HEv.sendSelf "Username:", HEv.sendSelf "Password:"],
            username := none, db := db, salts := salts, rest := [] }
        | pwLine :: rest3 =>
          let uname := pyStrip unameLine
          let pw := pyStrip pwLine
          if authenticate_user pbkdf2 db uname pw then
            { events := [HEv.sendSelf "Username:", HEv.sendSelf "Password:",
                HEv.sendSelf ("Login successful. Welcome, " ++ uname ++ "!")],
              username := some uname, db := db, salts := salts, rest := rest3 }
          else
            let out := authLoop pbkdf2 db salts rest3
            { out with events := HEv.sendSelf "Username:" ::
                HEv.sendSelf "Password:" ::
                HEv.sendSelf "Invalid username or password. Try again." ::
                out.events }
    else
      let out := authLoop pbkdf2 db salts rest
      { out with events :=
          HEv.sendSelf "Please type either 'register' or 'login'." :: out.events }

/-- Result of the chat loop: its events, the database (grown by the
saves of its broadcasts) and the remaining timestamp supply. -/
structure ChatOut where
  events : List HEv
  db : DB
  times : List String
deriving Repr

/-- The `while True` chat loop: blank lines are ignored, `/quit` sends
the farewell and exits, any other line is broadcast (persisting it with
the next timestamp of the supply); EOF exits. -/
def chatLoop (username : String) : DB → List String → List String → ChatOut
  | db, times, [] => { events := [], db := db, times := times }
  | db, times, l :: rest =>
    let message := pyStrip l
    if message == "" then chatLoop username db times rest
    else if message == "/quit" then
      { events := [HEv.sendSelf "Goodbye!"], db := db, times := times }
    else
      let db' := save_message db username message (times.headD "")
      let out := chatLoop username db' times.tail rest
      { out with events := HEv.bcast username message :: out.events }

/-- Result of one `handle_client` execution. -/
structure HCOut where
  events : List HEv
  username : Option String
  clients : List Client
  db : DB
deriving Repr

/-- One history line as replayed to a newly authenticated client:
`f"[{created_at}] {u}: {content}"`. -/
def histLine (r : Msg) : String :=
  "[" ++ r.2.2 ++ "] " ++ r.1 ++ ": " ++ r.2.1

/-- Everything `handle_client` does after the authentication loop
returns: on failure (EOF before authentication) just the `finally`
block with `username` unset; on success registration, history replay,
join broadcast, chat loop, then the `finally` block (remove from
`clients`, leave broadcast, close). -/
def handleAfterAuth (conn : Nat) (clients0 : List Client)
    (times : List String) (a : AuthOut) : HCOut :=
  let pre := HEv.sendSelf "Welcome to the chat server!" ::
    HEv.sendSelf "Type 'register' to create an account or 'login' to sign in:" ::
    a.events
  match a.username with
  | none =>
    { events := pre ++ [HEv.close conn], username := none,
      clients := clients0, db := a.db }
  | some u =>
    let clients1 := registryAdd clients0 ⟨conn, u⟩
    let hist := (get_recent_messages a.db 20).map
      (fun r => HEv.sendSelf (histLine r))
    let joinMsg := u ++ " has joined the chat."
    let dbJ := save_message a.db "SYSTEM" joinMsg (times.headD "")
    let chat := chatLoop u dbJ times.tail a.rest
    let leaveMsg := u ++ " has left the chat."
    let dbL := save_message chat.db "SYSTEM" leaveMsg (chat.times.headD "")
    { events := pre ++ [HEv.regAdd conn u, HEv.sendSelf "--- Recent messages ---"]
        ++ hist
        ++ [HEv.sendSelf "--- End of history ---",
            HEv.bcast "SYSTEM" joinMsg,
            HEv.sendSelf "You are now in the chatroom. Type messages and press Enter.",
            HEv.sendSelf "Type '/quit' to exit."]
        ++ chat.events
        ++ [HEv.regRemove conn, HEv.bcast "SYSTEM" leaveMsg, HEv.close conn],
      username := some u,
      clients := registryRemove clients1 conn,
      db := dbL }

/-- Models `server.handle_client`: welcome banner, authentication loop, then
`handleAfterAuth`. -/
def handle_client (pbkdf2 : String → List Nat → List Nat) (conn : Nat)
    (clients0 : List Client) (db0 : DB) (salts : List (List Nat))
    (times : List String) (inputs : List String) : HCOut :=
  handleAfterAuth conn clients0 times (authLoop pbkdf2 db0 salts inputs)

theorem authLoop_events_sendSelf (pbkdf2 : String → List Nat → List Nat)
    (db : DB) (salts : List (List Nat)) (inputs : List String) :
    ∀ e ∈ (authLoop pbkdf2 db salts inputs).events, ∃ s, e = HEv.sendSelf s := by
  induction db, salts, inputs using authLoop.induct pbkdf2 with
  | case1 db salts =>
    intro e he
    simp only [authLoop, List.not_mem_nil] at he
  | case2 db salts cmdline cmd h1 =>
    intro e he
    simp only [authLoop] at he
    rw [if_pos h1] at he
    simp only [List.mem_singleton] at he
    exact ⟨_, he⟩
  | case3 db salts cmdline cmd h1 pwLine =>
    intro e he
    simp only [authLoop] at he
    rw [if_pos h1] at he
    simp only [List.mem_cons, List.not_mem_nil, or_false] at he
    rcases he with rfl | rfl
    · exact ⟨_, rfl⟩
    · exact ⟨_, rfl⟩
  | case4 db salts cmdline cmd h1 uL pL rest3 un pw hempty ih =>
    intro e he
    simp only [authLoop] at he
    rw [if_pos h1, if_pos hempty] at he
    simp only [List.mem_cons] at he
    rcases he with rfl | rfl | rfl | he
    · exact ⟨_, rfl⟩
    · exact ⟨_, rfl⟩
    · exact ⟨_, rfl⟩
    · exact ih e he
  | case5 db salts cmdline cmd h1 uL pL rest3 un pw hempty res ih =>
    intro e he
    simp only [authLoop] at he
    rw [if_pos h1, if_neg hempty] at he
    simp only [List.mem_cons] at he
    rcases he with rfl | rfl | rfl | he
    · exact ⟨_, rfl⟩
    · exact ⟨_, rfl⟩
    · exact ⟨_, rfl⟩
    · exact ih e he
  | case6 db salts cmdline cmd h1 h2 =>
    intro e he
    simp only [authLoop] at he
    rw [if_neg h1, if_pos h2] at he
    simp only [List.mem_singleton] at he
    exact ⟨_, he⟩
  | case7 db salts cmdline cmd h1 h2 pwLine =>
    intro e he
    simp only [authLoop] at he
    rw [if_neg h1, if_pos h2] at he
    simp only [List.mem_cons, List.not_mem_nil, or_false] at he
    rcases he with rfl | rfl
    · exact ⟨_, rfl⟩
    · exact ⟨_, rfl⟩
  | case8 db salts cmdline cmd h1 h2 uL pL rest3 un pw hauth =>
    intro e he
    simp only [authLoop] at he
    rw [if_neg h1, if_pos h2, if_pos hauth] at he
    simp only [List.mem_cons, List.not_mem_nil, or_false] at he
    rcases he with rfl | rfl | rfl
    · exact ⟨_, rfl⟩
    · exact ⟨_, rfl⟩
    · exact ⟨_, rfl⟩
  | case9 db salts cmdline cmd h1 h2 uL pL rest3 un pw hauth ih =>
    intro e he
    simp only [authLoop] at he
    rw [if_neg h1, if_pos h2, if_neg hauth] at he
    simp only [List.mem_cons] at he
    rcases he with rfl | rfl | rfl | he
    · exact ⟨_, rfl⟩
    · exact ⟨_, rfl⟩
    · exact ⟨_, rfl⟩
    · exact ih e he
  | case10 db salts cmdline rest cmd h1 h2 ih =>
    intro e he
    match rest, he, ih with
    | [], he, ih =>
      simp only [authLoop] at he
      rw [if_neg h1, if_neg h2] at he
      simp only [List.mem_cons, List.not_mem_nil, or_false] at he
      subst he
      exact ⟨_, rfl⟩
    | [a], he, ih =>
      simp only [authLoop] at he
      rw [if_neg h1, if_neg h2] at he
      simp only [List.mem_cons] at he
      rcases he with rfl | he
      · exact ⟨_, rfl⟩
      · exact ih e he
    | a :: b :: r, he, ih =>
      simp only [authLoop] at he
      rw [if_neg h1, if_neg h2] at he
      simp only [List.mem_cons] at he
      rcases he with rfl | he
      · exact ⟨_, rfl⟩
      · exact ih e he

/-- Claim C7: when the authentication loop returns without a username (EOF
before authentication), the handler terminates silently: the registry is
untouched, no broadcast of any kind is emitted and the last event is the
close; when a username was set (the session reached `Authenticated`),
the trace ends with the removal from the registry, then the
`"<user> has left the chat."` SYSTEM broadcast, then the close — so the
leave notice is emitted exactly when authentication was reached, and the
session is unregistered before the connection is closed. -/
theorem handler_teardown (pbkdf2 : String → List Nat → List Nat) (conn : Nat)
    (clients0 : List Client) (db0 : DB) (salts : List (List Nat))
    (times : List String) (inputs : List String) (out : HCOut)
    (hout : out = handle_client pbkdf2 conn clients0 db0 salts times inputs) :
    (out.username = none →
      out.clients = clients0 ∧
      (∀ s c, HEv.bcast s c ∉ out.events) ∧
      (∀ k v, HEv.regAdd k v ∉ out.events) ∧
      (∀ k, HEv.regRemove k ∉ out.events) ∧
      ∃ pre, out.events = pre ++ [HEv.close conn]) ∧
    ∀ u, out.username = some u →
      ∃ pre, out.events = pre ++ [HEv.regRemove conn,
        HEv.bcast "SYSTEM" (u ++ " has left the chat."), HEv.close conn] := by
  subst hout
  have hsend := authLoop_events_sendSelf pbkdf2 db0 salts inputs
  unfold handle_client handleAfterAuth
  cases hu : (authLoop pbkdf2 db0 salts inputs).username with
  | none =>
    simp only [hu]
    refine ⟨fun _ => ⟨by trivial, ?_, ?_, ?_, ⟨_, rfl⟩⟩, fun u h => by simp at h⟩
    · intro s c hmem
      rcases List.mem_append.mp hmem with h | h
      · rcases List.mem_cons.mp h with h' | h'
        · exact HEv.noConfusion h'
        rcases List.mem_cons.mp h' with h2 | h2
        · exact HEv.noConfusion h2
        obtain ⟨s', hs'⟩ := hsend _ h2
        exact HEv.noConfusion hs'
      · exact HEv.noConfusion (List.mem_singleton.mp h)
    · intro k v hmem
      rcases List.mem_append.mp hmem with h | h
      · rcases List.mem_cons.mp h with h' | h'
        · exact HEv.noConfusion h'
        rcases List.mem_cons.mp h' with h2 | h2
        · exact HEv.noConfusion h2
        obtain ⟨s', hs'⟩ := hsend _ h2
        exact HEv.noConfusion hs'
      · exact HEv.noConfusion (List.mem_singleton.mp h)
    · intro k hmem
      rcases List.mem_append.mp hmem with h | h
      · rcases List.mem_cons.mp h with h' | h'
        · exact HEv.noConfusion h'
        rcases List.mem_cons.mp h' with h2 | h2
        · exact HEv.noConfusion h2
        obtain ⟨s', hs'⟩ := hsend _ h2
        exact HEv.noConfusion hs'
      · exact HEv.noConfusion (List.mem_singleton.mp h)
  | some u =>
    simp only [hu]
    refine ⟨fun h => by simp at h, ?_⟩
    intro u' h
    have hb : u = u' := by
      simpa using h
    subst hb
    exact ⟨_, rfl⟩

/-- Claim C7 witness: immediate EOF before any authentication ends silently
with no registry change. -/
theorem handler_teardown_witness :
    (handle_client (fun pw _ => strBytes pw) 7 [⟨3, "bob"⟩] DB.empty
        [] [] []).username = none ∧
    (handle_client (fun pw _ => strBytes pw) 7 [⟨3, "bob"⟩] DB.empty
        [] [] []).clients = [⟨3, "bob"⟩] :=
  ⟨rfl, ((handler_teardown (fun pw _ => strBytes pw) 7 [⟨3, "bob"⟩] DB.empty
      [] [] [] _ rfl).1 rfl).1⟩

theorem chatLoop_messages_mono (username : String) (db : DB)
    (times inputs : List String) {m : Msg} (hm : m ∈ db.messages) :
    m ∈ (chatLoop username db times inputs).db.messages := by
  induction db, times, inputs using chatLoop.induct username with
  | case1 db times => exact hm
  | case2 db times l rest message hempty ih =>
    simp only [chatLoop] at ih ⊢
    rw [if_pos hempty]
    exact ih hm
  | case3 db times l rest message hempty hquit =>
    simp only [chatLoop]
    rw [if_neg hempty, if_pos hquit]
    exact hm
  | case4 db times l rest message hempty hquit db' ih =>
    simp only [chatLoop]
    rw [if_neg hempty, if_neg hquit]
    exact ih (List.mem_append.mpr (Or.inl hm))

theorem chatLoop_bcast_persisted (username : String) (db : DB)
    (times inputs : List String) :
    ∀ s c, HEv.bcast s c ∈ (chatLoop username db times inputs).events →
      ∃ t, (s, c, t) ∈ (chatLoop username db times inputs).db.messages := by
  induction db, times, inputs using chatLoop.induct username with
  | case1 db times =>
    intro s c hmem
    simp only [chatLoop, List.not_mem_nil] at hmem
  | case2 db times l rest message hempty ih =>
    intro s c hmem
    simp only [chatLoop] at hmem ⊢
    rw [if_pos hempty] at hmem ⊢
    exact ih s c hmem
  | case3 db times l rest message hempty hquit =>
    intro s c hmem
    simp only [chatLoop] at hmem
    rw [if_neg hempty, if_pos hquit] at hmem
    exact absurd (List.mem_singleton.mp hmem) (fun h => HEv.noConfusion h)
  | case4 db times l rest message hempty hquit db' ih =>
    intro s c hmem
    simp only [chatLoop] at hmem ⊢
    rw [if_neg hempty, if_neg hquit] at hmem ⊢
    rcases List.mem_cons.mp hmem with h | h
    · have hs : s = username ∧ c = pyStrip l := by
        injection h with h1 h2
        exact ⟨h1, h2⟩
      obtain ⟨hs1, hs2⟩ := hs
      subst hs1
      subst hs2
      refine ⟨times.headD "", ?_⟩
      exact chatLoop_messages_mono _ _ _ _
        (List.mem_append.mpr (Or.inr (List.mem_singleton.mpr rfl)))
    · exact ih s c h

theorem last_mem_get_recent (db : DB) (init : List Msg) (m : Msg)
    (hmsg : db.messages = init ++ [m]) (n : Nat) (hn : 0 < n) :
    m ∈ get_recent_messages db n := by
  cases n with
  | zero => omega
  | succ k =>
    simp only [get_recent_messages, hmsg, List.reverse_append,
      List.reverse_singleton, List.singleton_append, List.take_succ_cons,
      List.mem_reverse]
    exact List.mem_cons_self _ _

/-- Claim C10: every broadcast the handler performs — chat messages and the
SYSTEM join/leave notices alike — has a corresponding row persisted in
the final message table; after an authenticated run both notices are in
the table, and the leave notice (the run's newest row) is returned by
`get_recent_messages` for every positive limit, hence replayed as
history to later clients. -/
theorem broadcasts_persisted (pbkdf2 : String → List Nat → List Nat)
    (conn : Nat) (clients0 : List Client) (db0 : DB)
    (salts : List (List Nat)) (times : List String) (inputs : List String)
    (out : HCOut)
    (hout : out = handle_client pbkdf2 conn clients0 db0 salts times inputs) :
    (∀ s c, HEv.bcast s c ∈ out.events → ∃ t, (s, c, t) ∈ out.db.messages) ∧
    ∀ u, out.username = some u →
      (∃ t, ("SYSTEM", u ++ " has joined the chat.", t) ∈ out.db.messages) ∧
      ∃ t, ∀ n, 0 < n →
        ("SYSTEM", u ++ " has left the chat.", t) ∈ get_recent_messages out.db n := by
  subst hout
  have hsend := authLoop_events_sendSelf pbkdf2 db0 salts inputs
  unfold handle_client handleAfterAuth
  cases hu : (authLoop pbkdf2 db0 salts inputs).username with
  | none =>
    refine ⟨?_, fun u h => by simp at h⟩
    intro s c hmem
    rcases List.mem_append.mp hmem with h | h
    · rcases List.mem_cons.mp h with h' | h'
      · exact HEv.noConfusion h'
      rcases List.mem_cons.mp h' with h2 | h2
      · exact HEv.noConfusion h2
      obtain ⟨s', hs'⟩ := hsend _ h2
      exact HEv.noConfusion hs'
    · exact HEv.noConfusion (List.mem_singleton.mp h)
  | some u =>
    constructor
    · intro s c hmem
      rcases List.mem_append.mp hmem with h | h
      · rcases List.mem_append.mp h with h | h
        · rcases List.mem_append.mp h with h | h
          · rcases List.mem_append.mp h with h | h
            · rcases List.mem_append.mp h with h | h
              · rcases List.mem_cons.mp h with h' | h'
                · exact HEv.noConfusion h'
                rcases List.mem_cons.mp h' with h2 | h2
                · exact HEv.noConfusion h2
                obtain ⟨s', hs'⟩ := hsend _ h2
                exact HEv.noConfusion hs'
              · rcases List.mem_cons.mp h with h' | h'
                · exact HEv.noConfusion h'
                exact HEv.noConfusion (List.mem_singleton.mp h')
            · obtain ⟨r, _, hr⟩ := List.mem_map.mp h
              exact HEv.noConfusion hr
          · rcases List.mem_cons.mp h with h' | h'
            · exact HEv.noConfusion h'
            rcases List.mem_cons.mp h' with h2 | h2
            · injection h2 with hs hc
              subst hs
              subst hc
              refine ⟨times.headD "", List.mem_append.mpr (Or.inl ?_)⟩
              exact chatLoop_messages_mono _ _ _ _
                (List.mem_append.mpr (Or.inr (List.mem_singleton.mpr rfl)))
            rcases List.mem_cons.mp h2 with h3 | h3
            · exact HEv.noConfusion h3
            exact HEv.noConfusion (List.mem_singleton.mp h3)
        · obtain ⟨t, ht⟩ := chatLoop_bcast_persisted u _ _ _ s c h
          exact ⟨t, List.mem_append.mpr (Or.inl ht)⟩
      · rcases List.mem_cons.mp h with h' | h'
        · exact HEv.noConfusion h'
        rcases List.mem_cons.mp h' with h2 | h2
        · injection h2 with hs hc
          subst hs
          subst hc
          exact ⟨_, List.mem_append.mpr (Or.inr (List.mem_singleton.mpr rfl))⟩
        exact HEv.noConfusion (List.mem_singleton.mp h2)
    · intro u' h
      have hb : u = u' := by simpa using h
      subst hb
      constructor
      · refine ⟨times.headD "", List.mem_append.mpr (Or.inl ?_)⟩
        exact chatLoop_messages_mono _ _ _ _
          (List.mem_append.mpr (Or.inr (List.mem_singleton.mpr rfl)))
      · exact ⟨_, fun n hn => last_mem_get_recent _ _ _ rfl n hn⟩

/-- Claim C10 witness: an authenticated log-in/quit run persists the SYSTEM
join notice. -/
theorem broadcasts_persisted_witness :
    (handle_client (fun pw _ => strBytes pw) 7 []
        (runCreates (fun pw _ => strBytes pw) DB.empty
          [([0, 1], "alice", "secret")]).1
        [] ["t1", "t2"] ["login", "alice", "secret", "/quit"]).username
      = some "alice" ∧
    ∃ t, ("SYSTEM", "alice" ++ " has joined the chat.", t) ∈
      (handle_client (fun pw _ => strBytes pw) 7 []
        (runCreates (fun pw _ => strBytes pw) DB.empty
          [([0, 1], "alice", "secret")]).1
        [] ["t1", "t2"] ["login", "alice", "secret", "/quit"]).db.messages :=
  ⟨rfl, ((broadcasts_persisted (fun pw _ => strBytes pw) 7 []
      (runCreates (fun pw _ => strBytes pw) DB.empty
        [([0, 1], "alice", "secret")]).1
      [] ["t1", "t2"] ["login", "alice", "secret", "/quit"] _ rfl).2
    "alice" rfl).1⟩

/-- Claim C8 counterexample: the registration step is a plain append, so
adding a session whose connection identity is already registered does
not leave the registry unchanged. -/
theorem registryAdd_not_noop :
    ¬ registryAdd [⟨0, "a"⟩] ⟨0, "a"⟩ = [⟨0, "a"⟩] := by decide

/-- Claim C8 amended: the Registry add step appends unconditionally: the
registry always grows by one entry, and adding a session that is already
present creates a duplicate (its multiplicity increases by one) instead
of being a no-op. -/
theorem registryAdd_appends (clients : List Client) (c : Client) :
    registryAdd clients c = clients ++ [c] ∧
    (registryAdd clients c).length = clients.length + 1 ∧
    (c ∈ clients →
      (registryAdd clients c).count c = clients.count c + 1) := by
  refine ⟨rfl, by simp [registryAdd], fun _ => ?_⟩
  simp [registryAdd]

/-- Claim C8 amended witness: re-adding a registered session duplicates it. -/
theorem registryAdd_appends_witness :
    (⟨0, "a"⟩ : Client) ∈ [(⟨0, "a"⟩ : Client)] ∧
    (registryAdd [⟨0, "a"⟩] ⟨0, "a"⟩).count ⟨0, "a"⟩
      = [(⟨0, "a"⟩ : Client)].count ⟨0, "a"⟩ + 1 :=
  ⟨by decide, (registryAdd_appends [⟨0, "a"⟩] ⟨0, "a"⟩).2.2 (by decide)⟩

/-- Claim C3 witness: two clients, the first one's send raising `OSError`;
the second still receives the line and the call returns normally. -/
theorem broadcast_send_failure_isolated_witness :
    (broadcast_message true (fun k => k != 1) [⟨1, "a"⟩, ⟨2, "b"⟩] DB.empty
        "u" "hi" "t").ok = true ∧
    Ev.send 2 ("[" ++ "u" ++ "] " ++ "hi" ++ "\n")
        ∈ (broadcast_message true (fun k => k != 1) [⟨1, "a"⟩, ⟨2, "b"⟩] DB.empty
            "u" "hi" "t").events := by
  refine ⟨(broadcast_send_failure_isolated (fun k => k != 1)
      [⟨1, "a"⟩, ⟨2, "b"⟩] DB.empty "u" "hi" "t").1, ?_⟩
  exact (broadcast_send_failure_isolated (fun k => k != 1)
      [⟨1, "a"⟩, ⟨2, "b"⟩] DB.empty "u" "hi" "t").2.1
    ⟨2, "b"⟩ (by decide) (by decide)

end Chat
